import Mathlib

/-
Shallow embedding of the wavetable synthesis core of `src/audio/processor.ts`
(the 16-channel `WavetableProcessor` AudioWorklet): channel bank, voice pool,
ADSR envelope state machine, wavetable oscillator and the control message
handler.  JavaScript numbers are modelled as rationals; a JavaScript
`undefined`-dereference exception on the render path is modelled by `Option`
(`none` = the callback throws).
-/

namespace WavetableSynth

/-- Size of each channel wavetable, in samples per waveform period
(`const WAVETABLE_SIZE = 32`). -/
def WAVETABLE_SIZE : Nat := 32

/-- Envelope state machine states of a voice
(`envState: 'IDLE' | 'ATTACK' | 'DECAY' | 'SUSTAIN' | 'RELEASE'`). -/
inductive EnvState where
  | IDLE
  | ATTACK
  | DECAY
  | SUSTAIN
  | RELEASE
  deriving DecidableEq

/-- ADSR envelope parameters: attack and decay times in seconds, sustain
level, release time in seconds (interface `ADSR`). -/
structure ADSR where
  a : ℚ
  d : ℚ
  s : ℚ
  r : ℚ
  deriving DecidableEq

/-- One slot of the fixed voice pool (interface `Voice`). -/
structure Voice where
  active : Bool
  channel : ℤ
  note : ℤ
  phase : ℚ
  phaseStep : ℚ
  envState : EnvState
  envTime : ℚ
  envLevel : ℚ
  releaseStartLevel : ℚ
  velocity : ℚ
  deriving DecidableEq

/-- Per-MIDI-channel tone state (interface `ChannelState`). -/
structure ChannelState where
  wavetable : List ℚ
  adsr : ADSR
  deriving DecidableEq

/-- State of the `WavetableProcessor`: 16 channel records, 6 voice slots and
the fixed sample rate. -/
structure Processor where
  channels : List ChannelState
  voices : List Voice
  sampleRateVal : ℚ
  deriving DecidableEq

/-- Control messages carried over the worklet port (the `type`/`payload`
pairs dispatched by `handleMessage`). -/
inductive Msg where
  | NOTE_ON (note : ℤ) (velocity : ℚ) (channel : ℤ)
  | NOTE_OFF (note : ℤ) (channel : ℤ)
  | SET_CHANNEL_WAVETABLE (channel : ℤ) (wavetable : List ℚ)
  | SET_CHANNEL_ADSR (channel : ℤ) (adsr : ADSR)
  | STOP_ALL

/-- Decides `envState === 'IDLE'`. -/
def isIdle (e : EnvState) : Bool :=
  match e with
  | .IDLE => true
  | _ => false

/-- Decides `envState === 'RELEASE'`. -/
def isRelease (e : EnvState) : Bool :=
  match e with
  | .RELEASE => true
  | _ => false

/-- Index of the first element satisfying `p`, mirroring
`Array.prototype.find` (which scans in index order 0..length-1). -/
def firstWhere {α : Type} (p : α → Bool) : List α → Option Nat
  | [] => none
  | x :: rest => if p x then some 0 else (firstWhere p rest).map (· + 1)

/-- Voice slot chosen by `triggerAttack`: first `IDLE` slot, else first
`RELEASE` slot, else slot `0` (`this.voices.find(...)` twice, then
`this.voices[0]`). -/
def selectIdx (vs : List Voice) : Nat :=
  match firstWhere (fun v => isIdle v.envState) vs with
  | some i => i
  | none =>
    match firstWhere (fun v => isRelease v.envState) vs with
    | some i => i
    | none => 0

/-- The voice as it is freshly initialised in the pool constructor. -/
def initVoice : Voice :=
  { active := false
    channel := 0
    note := 0
    phase := 0
    phaseStep := 0
    envState := .IDLE
    envTime := 0
    envLevel := 0
    releaseStartLevel := 0
    velocity := 0 }

/-- Field updates `triggerAttack` performs on the selected voice.  The
source computes `freq = 440 * Math.pow(2, (note - 69) / 12)`; real-number
exponentiation has no exact rational value, so the map from note number to
frequency is a parameter `freqOf` of the embedding. -/
def attackVoice (freqOf : ℤ → ℚ) (sr : ℚ) (note : ℤ) (velocity : ℚ)
    (channel : ℤ) (v : Voice) : Voice :=
  { v with
    active := true
    note := note
    channel := channel
    phaseStep := freqOf note / sr * (WAVETABLE_SIZE : ℚ)
    phase := 0
    velocity := velocity / 127
    envState := .ATTACK
    envTime := 0
    envLevel := 0 }

/-- `WavetableProcessor.triggerAttack`: select a slot by `selectIdx` and
reinitialise it for the new note. -/
def triggerAttack (freqOf : ℤ → ℚ) (st : Processor) (note : ℤ)
    (velocity : ℚ) (channel : ℤ) : Processor :=
  let i := selectIdx st.voices
  { st with
    voices := st.voices.set i
      (attackVoice freqOf st.sampleRateVal note velocity channel
        (st.voices.getD i initVoice)) }

/-- The guard of `triggerRelease`:
`v.active && v.note === note && v.channel === channel &&
v.envState !== 'RELEASE' && v.envState !== 'IDLE'`. -/
def releaseMatches (note : ℤ) (channel : ℤ) (v : Voice) : Bool :=
  v.active && v.note == note && v.channel == channel &&
    !isRelease v.envState && !isIdle v.envState

/-- Field updates `triggerRelease` performs on a matching voice. -/
def releaseVoice (v : Voice) : Voice :=
  { v with envState := .RELEASE, envTime := 0, releaseStartLevel := v.envLevel }

/-- `WavetableProcessor.triggerRelease`: every matching voice enters
`RELEASE`; the rest are untouched. -/
def triggerRelease (st : Processor) (note : ℤ) (channel : ℤ) : Processor :=
  { st with
    voices := st.voices.map
      (fun v => if releaseMatches note channel v then releaseVoice v else v) }

/-- Field updates of the `STOP_ALL` handler on each voice. -/
def stopVoice (v : Voice) : Voice :=
  { v with active := false, envState := .IDLE, envLevel := 0 }

/-- The `STOP_ALL` branch of `handleMessage`: force-reset every voice. -/
def stopAll (st : Processor) : Processor :=
  { st with voices := st.voices.map stopVoice }

/-- `this.channels[c]` as JavaScript evaluates it: `none` models
`undefined` (negative or too-large index). -/
def channelAt (channels : List ChannelState) (c : ℤ) : Option ChannelState :=
  if 0 ≤ c then channels[c.toNat]? else none

/-- `WavetableProcessor.handleMessage`: dispatch one control message. -/
def handleMessage (freqOf : ℤ → ℚ) (st : Processor) (m : Msg) : Processor :=
  match m with
  | .NOTE_ON note velocity channel => triggerAttack freqOf st note velocity channel
  | .NOTE_OFF note channel => triggerRelease st note channel
  | .SET_CHANNEL_WAVETABLE channel wt =>
    match channelAt st.channels channel with
    | none => st
    | some ch =>
      if wt.length = WAVETABLE_SIZE then
        { st with channels := st.channels.set channel.toNat { ch with wavetable := wt } }
      else st
  | .SET_CHANNEL_ADSR channel adsr =>
    match channelAt st.channels channel with
    | none => st
    | some ch =>
      { st with channels := st.channels.set channel.toNat { ch with adsr := adsr } }
  | .STOP_ALL => stopAll st

/-- One per-sample step of the envelope switch in `process` for an active
voice (the `switch (voice.envState)` block). -/
def envStep (adsr : ADSR) (sr : ℚ) (v : Voice) : Voice :=
  match v.envState with
  | .IDLE => v
  | .ATTACK =>
    let aSamples := adsr.a * sr
    if aSamples ≤ 0 then
      { v with envLevel := 1, envState := .DECAY, envTime := 0 }
    else
      let stepSize := 1 / aSamples
      let lvl := v.envLevel + stepSize
      if 1 ≤ lvl then
        { v with envLevel := 1, envState := .DECAY, envTime := 0 }
      else
        { v with envLevel := lvl }
  | .DECAY =>
    let dSamples := adsr.d * sr
    if dSamples ≤ 0 then
      { v with envLevel := adsr.s, envState := .SUSTAIN }
    else
      let stepSize := (1 - adsr.s) / dSamples
      let lvl := v.envLevel - stepSize
      if lvl ≤ adsr.s then
        { v with envLevel := adsr.s, envState := .SUSTAIN }
      else
        { v with envLevel := lvl }
  | .SUSTAIN => { v with envLevel := adsr.s }
  | .RELEASE =>
    let rSamples := adsr.r * sr
    if rSamples ≤ 0 then
      { v with envLevel := 0, active := false, envState := .IDLE }
    else
      let stepSize := v.releaseStartLevel / rSamples
      let lvl := v.envLevel - stepSize
      if lvl ≤ 0 then
        { v with envLevel := 0, active := false, envState := .IDLE }
      else
        { v with envLevel := lvl }

/-- The wavetable block of `process` for one voice and one sample: when the
combined gain exceeds `0.0001`, look the table up with linear interpolation
and advance the phase (wrapping by one subtraction); otherwise both lookup
and phase increment are skipped.  Returns the updated voice and its
contribution to `sampleSum`.  An out-of-range table read yields the JS
value `undefined`; it is modelled by the default `0`, and is unreachable
while `phase` stays inside `[0, WAVETABLE_SIZE)`. -/
def oscStep (wavetable : List ℚ) (v : Voice) : Voice × ℚ :=
  let currentGain := v.envLevel * v.velocity
  if currentGain > 1 / 10000 then
    let i : ℤ := ⌊v.phase⌋
    let frac := v.phase - (i : ℚ)
    let nextI := (i + 1) % (WAVETABLE_SIZE : ℤ)
    let val := wavetable.getD i.toNat 0 * (1 - frac) + wavetable.getD nextI.toNat 0 * frac
    let p2 := v.phase + v.phaseStep
    let p3 := if (WAVETABLE_SIZE : ℚ) ≤ p2 then p2 - (WAVETABLE_SIZE : ℚ) else p2
    ({ v with phase := p3 }, val * currentGain)
  else
    (v, 0)

/-- The inner voice loop of `process` for one output sample: inactive
voices are skipped unchanged; an active voice first dereferences
`this.channels[voice.channel]` — `none` models the `TypeError` thrown when
that is `undefined` — then runs the envelope and oscillator.  Returns the
updated pool and `sampleSum`. -/
def voicesStep (channels : List ChannelState) (sr : ℚ) :
    List Voice → Option (List Voice × ℚ)
  | [] => some ([], 0)
  | v :: rest =>
    if v.active then
      match channelAt channels v.channel with
      | none => none
      | some ch =>
        let r := oscStep ch.wavetable (envStep ch.adsr sr v)
        match voicesStep channels sr rest with
        | none => none
        | some (vs, rest_sum) => some (r.1 :: vs, r.2 + rest_sum)
    else
      match voicesStep channels sr rest with
      | none => none
      | some (vs, rest_sum) => some (v :: vs, rest_sum)

/-- One iteration of the outer sample loop of `process`: run every voice,
then scale `sampleSum` by the fixed `/ 4.0` normalisation.  `none` models
an exception escaping the audio callback. -/
def renderSample (st : Processor) : Option (Processor × ℚ) :=
  match voicesStep st.channels st.sampleRateVal st.voices with
  | none => none
  | some (vs, sampleSum) => some ({ st with voices := vs }, sampleSum / 4)

/-- Render `n` consecutive samples, discarding the output values. -/
def renderN : Nat → Processor → Option Processor
  | 0, st => some st
  | n + 1, st =>
    match renderSample st with
    | none => none
    | some (st1, _) => renderN n st1

/-- Default ADSR installed on every channel by the constructor
(`{ a: 0.1, d: 0.1, s: 0.5, r: 0.2 }`). -/
def defaultADSR : ADSR := { a := 1/10, d := 1/10, s := 1/2, r := 1/5 }

/-- Constructor state: 16 channels, 6 idle voices, fixed sample rate.  The
source fills each default wavetable with `Math.sin` samples; the sine
period has no exact rational value, so the default table is a parameter. -/
def initState (sineTable : List ℚ) (sr : ℚ) : Processor :=
  { channels := List.replicate 16 { wavetable := sineTable, adsr := defaultADSR }
    voices := List.replicate 6 initVoice
    sampleRateVal := sr }

/-- Number of voices whose `active` flag is set. -/
def countActive (st : Processor) : Nat := (st.voices.filter (·.active)).length

/-- Default value used with `List.getD` when reading the channel bank. -/
def emptyChannel : ChannelState := { wavetable := [], adsr := defaultADSR }

/-- Concrete all-zero wavetable used for concrete instantiations. -/
def zeroTable : List ℚ := List.replicate 32 0

/-- Concrete engine state: all-zero default tables, 48 kHz sample rate. -/
def st0 : Processor := initState zeroTable 48000

/-- Concrete instantiation of the note-to-frequency parameter. -/
def freq440 : ℤ → ℚ := fun _ => 440

/-- An ADSR payload whose sustain lies outside `[0,1]` and whose stage
times are instantaneous. -/
def adsrOutOfRange : ADSR := { a := 0, d := 0, s := 2, r := 0 }

/-- A concrete voice about to wrap its phase: full gain, phase near the
end of the table. -/
def wrapVoice : Voice :=
  { initVoice with envLevel := 1, velocity := 1, phase := 31, phaseStep := 2 }

/-- A concrete sustained voice playing note 69 on channel 0. -/
def relVoice : Voice :=
  { initVoice with
    active := true
    note := 69
    channel := 0
    envState := .SUSTAIN
    envLevel := 1/2 }

/-- A concrete engine state holding one sustained voice. -/
def stRel : Processor := { st0 with voices := [relVoice] }

/-- Level bounds of one voice: `envLevel` and `releaseStartLevel` both lie
in `[0,1]`. -/
def voiceLevelsOK (v : Voice) : Prop :=
  0 ≤ v.envLevel ∧ v.envLevel ≤ 1 ∧
    0 ≤ v.releaseStartLevel ∧ v.releaseStartLevel ≤ 1

/-- Sustain bound of one channel record: `adsr.s` lies in `[0,1]`. -/
def sustainOK (c : ChannelState) : Prop := 0 ≤ c.adsr.s ∧ c.adsr.s ≤ 1

/-- Engine invariant: every voice's levels and every channel's sustain lie
in `[0,1]`. -/
def EngineInv (st : Processor) : Prop :=
  (∀ v ∈ st.voices, voiceLevelsOK v) ∧ ∀ c ∈ st.channels, sustainOK c

/-- A control message is sustain-safe when any ADSR payload it carries has
its sustain in `[0,1]` (the valid range of the external interface). -/
def msgSustainOK : Msg → Prop
  | .SET_CHANNEL_ADSR _ adsr => 0 ≤ adsr.s ∧ adsr.s ≤ 1
  | _ => True

/-- Reachable state obtained by storing an out-of-range sustain and then
starting a note with instantaneous attack and decay. -/
def c4State : Processor :=
  handleMessage freq440
    (handleMessage freq440 st0 (.SET_CHANNEL_ADSR 0 adsrOutOfRange))
    (.NOTE_ON 69 127 0)

/-- The selection policy of `selectIdx` as a function of the envelope
states alone (the only voice fields the policy inspects). -/
def selectIdxStates (es : List EnvState) : Nat :=
  match firstWhere isIdle es with
  | some i => i
  | none =>
    match firstWhere isRelease es with
    | some i => i
    | none => 0

/-! Helper lemmas shared between the claim theorems. -/

theorem voicesStep_of_all_inactive (channels : List ChannelState) (sr : ℚ) :
    ∀ vs : List Voice, (∀ v ∈ vs, v.active = false) →
      voicesStep channels sr vs = some (vs, 0) := by
  intro vs h
  induction vs with
  | nil => rfl
  | cons v rest ih =>
    have hv : v.active = false := h v (by simp)
    have hrest := ih (fun w hw => h w (by simp [hw]))
    simp [voicesStep, hv, hrest]

theorem stopVoice_fields (v : Voice) :
    (stopVoice v).note = v.note ∧ (stopVoice v).channel = v.channel ∧
      (stopVoice v).velocity = v.velocity ∧ (stopVoice v).phase = v.phase ∧
      (stopVoice v).phaseStep = v.phaseStep ∧ (stopVoice v).envTime = v.envTime ∧
      (stopVoice v).releaseStartLevel = v.releaseStartLevel ∧
      (stopVoice v).active = false ∧ (stopVoice v).envState = .IDLE ∧
      (stopVoice v).envLevel = 0 := by
  simp [stopVoice]

/-- C6: the `STOP_ALL` handler forces every voice to `IDLE` with
`envLevel = 0` and `active = false` immediately, so every voice's effective
gain `envLevel * velocity` is `0`, and the very next rendered sample leaves
every voice untouched and outputs `0`. -/
theorem claim6_stop_all_immediate_silence (freqOf : ℤ → ℚ) (st : Processor) :
    (∀ v ∈ (handleMessage freqOf st .STOP_ALL).voices,
      v.envState = .IDLE ∧ v.envLevel = 0 ∧ v.active = false ∧
        v.envLevel * v.velocity = 0) ∧
    renderSample (handleMessage freqOf st .STOP_ALL) =
      some (handleMessage freqOf st .STOP_ALL, 0) := by
  have hall : ∀ v ∈ (handleMessage freqOf st .STOP_ALL).voices,
      v.envState = .IDLE ∧ v.envLevel = 0 ∧ v.active = false ∧
        v.envLevel * v.velocity = 0 := by
    intro v hv
    simp only [handleMessage, stopAll, List.mem_map] at hv
    obtain ⟨w, _, rfl⟩ := hv
    simp [stopVoice]
  refine ⟨hall, ?_⟩
  have hstep := voicesStep_of_all_inactive
    (handleMessage freqOf st .STOP_ALL).channels
    (handleMessage freqOf st .STOP_ALL).sampleRateVal
    (handleMessage freqOf st .STOP_ALL).voices
    (fun v hv => (hall v hv).2.2.1)
  simp [renderSample, hstep]

/-- C6 witness: instantiating C6 at a concrete engine state. -/
theorem claim6_stop_all_immediate_silence_witness :
    (∀ v ∈ (handleMessage (fun _ => 440) (initState (List.replicate 32 0) 48000)
        .STOP_ALL).voices,
      v.envState = .IDLE ∧ v.envLevel = 0 ∧ v.active = false ∧
        v.envLevel * v.velocity = 0) ∧
    renderSample (handleMessage (fun _ => 440) (initState (List.replicate 32 0) 48000)
        .STOP_ALL) =
      some (handleMessage (fun _ => 440) (initState (List.replicate 32 0) 48000)
        .STOP_ALL, 0) :=
  claim6_stop_all_immediate_silence (fun _ => 440)
    (initState (List.replicate 32 0) 48000)

/-- C9: the `STOP_ALL` handler modifies only `active`, `envState` and
`envLevel` of each voice: the channel bank, the sample rate, the pool size
and each voice's `note`, `channel`, `velocity`, `phase`, `phaseStep`,
`envTime` and `releaseStartLevel` are left unchanged. -/
theorem claim9_stop_all_frame (freqOf : ℤ → ℚ) (st : Processor) (i : Nat) :
    (handleMessage freqOf st .STOP_ALL).channels = st.channels ∧
    (handleMessage freqOf st .STOP_ALL).sampleRateVal = st.sampleRateVal ∧
    (handleMessage freqOf st .STOP_ALL).voices.length = st.voices.length ∧
    ((handleMessage freqOf st .STOP_ALL).voices.getD i initVoice).note =
      (st.voices.getD i initVoice).note ∧
    ((handleMessage freqOf st .STOP_ALL).voices.getD i initVoice).channel =
      (st.voices.getD i initVoice).channel ∧
    ((handleMessage freqOf st .STOP_ALL).voices.getD i initVoice).velocity =
      (st.voices.getD i initVoice).velocity ∧
    ((handleMessage freqOf st .STOP_ALL).voices.getD i initVoice).phase =
      (st.voices.getD i initVoice).phase ∧
    ((handleMessage freqOf st .STOP_ALL).voices.getD i initVoice).phaseStep =
      (st.voices.getD i initVoice).phaseStep ∧
    ((handleMessage freqOf st .STOP_ALL).voices.getD i initVoice).envTime =
      (st.voices.getD i initVoice).envTime ∧
    ((handleMessage freqOf st .STOP_ALL).voices.getD i initVoice).releaseStartLevel =
      (st.voices.getD i initVoice).releaseStartLevel := by
  have hv : (handleMessage freqOf st .STOP_ALL).voices = st.voices.map stopVoice := rfl
  refine ⟨rfl, rfl, by simp [hv], ?_, ?_, ?_, ?_, ?_, ?_, ?_⟩ <;>
    · simp only [hv, List.getD_eq_getElem?_getD, List.getElem?_map]
      cases st.voices[i]? <;> simp [stopVoice, initVoice]

theorem oscStep_gain_le (wavetable : List ℚ) (v : Voice)
    (h : v.envLevel * v.velocity ≤ 1 / 10000) :
    oscStep wavetable v = (v, 0) := by
  simp only [oscStep]
  rw [if_neg (not_lt.mpr h)]

theorem oscStep_gain_gt (wavetable : List ℚ) (v : Voice)
    (h : v.envLevel * v.velocity > 1 / 10000) :
    (oscStep wavetable v).1.phase =
      if (WAVETABLE_SIZE : ℚ) ≤ v.phase + v.phaseStep
      then v.phase + v.phaseStep - (WAVETABLE_SIZE : ℚ)
      else v.phase + v.phaseStep := by
  simp only [oscStep]
  rw [if_pos h]

/-- C10: in the per-sample wavetable block, a voice whose combined gain
`envLevel * velocity` is at most `0.0001` contributes exactly `0` to the
sample sum and its phase is not advanced (the whole voice is unchanged). -/
theorem claim10_low_gain_contributes_nothing (wavetable : List ℚ) (v : Voice)
    (h : v.envLevel * v.velocity ≤ 1 / 10000) :
    oscStep wavetable v = (v, 0) :=
  oscStep_gain_le wavetable v h

theorem isIdle_eq_false (e : EnvState) : isIdle e = false ↔ e ≠ .IDLE := by
  cases e <;> simp [isIdle]

theorem isRelease_eq_false (e : EnvState) : isRelease e = false ↔ e ≠ .RELEASE := by
  cases e <;> simp [isRelease]

theorem releaseMatches_iff (note channel : ℤ) (v : Voice) :
    releaseMatches note channel v = true ↔
      (v.active = true ∧ v.note = note ∧ v.channel = channel ∧
        v.envState ≠ .RELEASE ∧ v.envState ≠ .IDLE) := by
  simp [releaseMatches, Bool.and_eq_true, beq_iff_eq, Bool.not_eq_true',
    isIdle_eq_false, isRelease_eq_false, and_assoc]

/-- C7: `triggerRelease(note, channel)` sends every voice that is active,
matches the note and the channel and is in neither `IDLE` nor `RELEASE`
into `RELEASE`, capturing `releaseStartLevel = envLevel` and resetting
`envTime` to 0, while leaving every other voice (and the rest of the
state) unchanged; all matching voices release together. -/
theorem claim7_release_all_matching (st : Processor) (note channel : ℤ) (i : Nat) :
    (triggerRelease st note channel).channels = st.channels ∧
    (triggerRelease st note channel).sampleRateVal = st.sampleRateVal ∧
    (triggerRelease st note channel).voices.length = st.voices.length ∧
    (((st.voices.getD i initVoice).active = true ∧
        (st.voices.getD i initVoice).note = note ∧
        (st.voices.getD i initVoice).channel = channel ∧
        (st.voices.getD i initVoice).envState ≠ .RELEASE ∧
        (st.voices.getD i initVoice).envState ≠ .IDLE) →
      (triggerRelease st note channel).voices.getD i initVoice =
        { st.voices.getD i initVoice with
            envState := .RELEASE
            envTime := 0
            releaseStartLevel := (st.voices.getD i initVoice).envLevel }) ∧
    (¬ ((st.voices.getD i initVoice).active = true ∧
        (st.voices.getD i initVoice).note = note ∧
        (st.voices.getD i initVoice).channel = channel ∧
        (st.voices.getD i initVoice).envState ≠ .RELEASE ∧
        (st.voices.getD i initVoice).envState ≠ .IDLE) →
      (triggerRelease st note channel).voices.getD i initVoice =
        st.voices.getD i initVoice) := by
  refine ⟨rfl, rfl, by simp [triggerRelease], ?_⟩
  rcases h : st.voices[i]? with _ | v
  · have hg : st.voices.getD i initVoice = initVoice := by
      simp [List.getD_eq_getElem?_getD, h]
    have hg2 : (triggerRelease st note channel).voices.getD i initVoice = initVoice := by
      simp [triggerRelease, List.getD_eq_getElem?_getD, List.getElem?_map, h]
    constructor
    · intro hc
      rw [hg] at hc
      exact absurd hc.1 (by simp [initVoice])
    · intro _
      rw [hg, hg2]
  · have hg : st.voices.getD i initVoice = v := by
      simp [List.getD_eq_getElem?_getD, h]
    have hg2 : (triggerRelease st note channel).voices.getD i initVoice =
        if releaseMatches note channel v then releaseVoice v else v := by
      simp [triggerRelease, List.getD_eq_getElem?_getD, List.getElem?_map, h]
    rw [hg, hg2]
    constructor
    · intro hc
      rw [if_pos ((releaseMatches_iff note channel v).mpr hc)]
      rfl
    · intro hc
      have hm : ¬ (releaseMatches note channel v = true) := fun hmt =>
        hc ((releaseMatches_iff note channel v).mp hmt)
      rw [if_neg hm]

/-- C7 witness: a concrete sustained voice matching the released note and
channel transitions to `RELEASE` with `releaseStartLevel` captured. -/
theorem claim7_release_all_matching_witness :
    (triggerRelease stRel 69 0).voices.getD 0 initVoice =
      { stRel.voices.getD 0 initVoice with
          envState := .RELEASE
          envTime := 0
          releaseStartLevel := (stRel.voices.getD 0 initVoice).envLevel } :=
  (claim7_release_all_matching stRel 69 0 0).2.2.2.1
    ⟨rfl, rfl, rfl, by decide, by decide⟩

/-- C5: for a rendered sample in which an active voice's gain exceeds the
`0.0001` threshold, the phase advances by exactly `phaseStep`, wrapping by
a single subtraction of `WAVETABLE_SIZE` when the advanced phase reaches
or exceeds `WAVETABLE_SIZE`; on a skipped sample the phase is unchanged;
in all cases the phase stays inside `[0, WAVETABLE_SIZE)` (given
`0 ≤ phase < WAVETABLE_SIZE` and `0 ≤ phaseStep < WAVETABLE_SIZE`, the
latter holding for every MIDI note at audio sample rates). -/
theorem claim5_phase_advance_and_wrap (wavetable : List ℚ) (v : Voice)
    (h1 : 0 ≤ v.phase) (h2 : v.phase < (WAVETABLE_SIZE : ℚ))
    (h3 : 0 ≤ v.phaseStep) (h4 : v.phaseStep < (WAVETABLE_SIZE : ℚ)) :
    (v.envLevel * v.velocity > 1 / 10000 →
      (v.phase + v.phaseStep < (WAVETABLE_SIZE : ℚ) ∧
        (oscStep wavetable v).1.phase = v.phase + v.phaseStep) ∨
      ((WAVETABLE_SIZE : ℚ) ≤ v.phase + v.phaseStep ∧
        (oscStep wavetable v).1.phase =
          v.phase + v.phaseStep - (WAVETABLE_SIZE : ℚ))) ∧
    (v.envLevel * v.velocity ≤ 1 / 10000 →
      (oscStep wavetable v).1.phase = v.phase) ∧
    0 ≤ (oscStep wavetable v).1.phase ∧
    (oscStep wavetable v).1.phase < (WAVETABLE_SIZE : ℚ) := by
  by_cases hg : v.envLevel * v.velocity > 1 / 10000
  · have hph := oscStep_gain_gt wavetable v hg
    by_cases hw : (WAVETABLE_SIZE : ℚ) ≤ v.phase + v.phaseStep
    · rw [if_pos hw] at hph
      refine ⟨fun _ => Or.inr ⟨hw, hph⟩, fun hle => absurd hg (not_lt.mpr hle), ?_, ?_⟩
      · rw [hph]; linarith
      · rw [hph]; linarith
    · rw [if_neg hw] at hph
      push_neg at hw
      refine ⟨fun _ => Or.inl ⟨hw, hph⟩, fun hle => absurd hg (not_lt.mpr hle), ?_, ?_⟩
      · rw [hph]; linarith
      · rw [hph]; linarith
  · have hph : (oscStep wavetable v).1.phase = v.phase := by
      rw [oscStep_gain_le wavetable v (not_lt.mp hg)]
    exact ⟨fun hgt => absurd hgt hg, fun _ => hph, by rw [hph]; exact h1, by rw [hph]; exact h2⟩

/-- C4 counterexample: the claim fails on the code as stated.  After the
reachable message sequence `SET_CHANNEL_ADSR {a:0,d:0,s:2,r:0}` on channel
0 (stored unclamped) and `NOTE_ON 69 127 0`, two rendered samples drive
voice 0 through the instantaneous attack into decay and then to
`envLevel = sustain = 2 > 1`. -/
theorem claim4_env_level_escapes_counterexample :
    (renderN 2 c4State).map (fun st => (st.voices.getD 0 initVoice).envLevel) =
      some 2 ∧ (1 : ℚ) < 2 := by
  constructor
  · norm_num [c4State, st0, initState, zeroTable, defaultADSR, freq440,
      adsrOutOfRange, handleMessage, triggerAttack, selectIdx, firstWhere,
      isIdle, attackVoice, initVoice, channelAt, renderN, renderSample,
      voicesStep, envStep, oscStep, emptyChannel, WAVETABLE_SIZE,
      List.replicate]
  · norm_num

theorem envStep_preserves_levels (adsr : ADSR) (sr : ℚ) (v : Voice)
    (hs0 : 0 ≤ adsr.s) (hs1 : adsr.s ≤ 1) (hv : voiceLevelsOK v) :
    voiceLevelsOK (envStep adsr sr v) := by
  obtain ⟨act, chn, nt, ph, ps, es, et, el, rs, vel⟩ := v
  simp only [voiceLevelsOK] at hv
  obtain ⟨he0, he1, hr0, hr1⟩ := hv
  cases es with
  | IDLE =>
    exact ⟨he0, he1, hr0, hr1⟩
  | ATTACK =>
    simp only [envStep]
    by_cases ha : adsr.a * sr ≤ 0
    · simp only [if_pos ha, voiceLevelsOK]
      exact ⟨by norm_num, by norm_num, hr0, hr1⟩
    · have ha' : 0 < adsr.a * sr := lt_of_not_le ha
      have hpos : 0 < 1 / (adsr.a * sr) := by positivity
      simp only [if_neg ha]
      by_cases hl : (1 : ℚ) ≤ el + 1 / (adsr.a * sr)
      · simp only [if_pos hl, voiceLevelsOK]
        exact ⟨by norm_num, by norm_num, hr0, hr1⟩
      · simp only [if_neg hl, voiceLevelsOK]
        push_neg at hl
        exact ⟨by linarith, by linarith, hr0, hr1⟩
  | DECAY =>
    simp only [envStep]
    by_cases hd : adsr.d * sr ≤ 0
    · simp only [if_pos hd, voiceLevelsOK]
      exact ⟨hs0, hs1, hr0, hr1⟩
    · have hd' : 0 < adsr.d * sr := lt_of_not_le hd
      have hstep : 0 ≤ (1 - adsr.s) / (adsr.d * sr) :=
        div_nonneg (by linarith) (le_of_lt hd')
      simp only [if_neg hd]
      by_cases hl : el - (1 - adsr.s) / (adsr.d * sr) ≤ adsr.s
      · simp only [if_pos hl, voiceLevelsOK]
        exact ⟨hs0, hs1, hr0, hr1⟩
      · simp only [if_neg hl, voiceLevelsOK]
        push_neg at hl
        exact ⟨by linarith, by linarith, hr0, hr1⟩
  | SUSTAIN =>
    simp only [envStep, voiceLevelsOK]
    exact ⟨hs0, hs1, hr0, hr1⟩
  | RELEASE =>
    simp only [envStep]
    by_cases hr : adsr.r * sr ≤ 0
    · simp only [if_pos hr, voiceLevelsOK]
      exact ⟨by norm_num, by norm_num, hr0, hr1⟩
    · have hr' : 0 < adsr.r * sr := lt_of_not_le hr
      have hstep : 0 ≤ rs / (adsr.r * sr) := div_nonneg hr0 (le_of_lt hr')
      simp only [if_neg hr]
      by_cases hl : el - rs / (adsr.r * sr) ≤ 0
      · simp only [if_pos hl, voiceLevelsOK]
        exact ⟨by norm_num, by norm_num, hr0, hr1⟩
      · simp only [if_neg hl, voiceLevelsOK]
        push_neg at hl
        exact ⟨by linarith, by linarith, hr0, hr1⟩

theorem oscStep_preserves_levels (wt : List ℚ) (v : Voice)
    (hv : voiceLevelsOK v) : voiceLevelsOK (oscStep wt v).1 := by
  simp only [oscStep]
  split
  · simpa [voiceLevelsOK] using hv
  · exact hv

theorem getD_voiceLevelsOK (vs : List Voice) (i : Nat)
    (h : ∀ v ∈ vs, voiceLevelsOK v) : voiceLevelsOK (vs.getD i initVoice) := by
  rw [List.getD_eq_getElem?_getD]
  cases hv : vs[i]? with
  | none => exact ⟨le_refl 0, by norm_num [initVoice], le_refl 0, by norm_num [initVoice]⟩
  | some w => exact h w (List.getElem?_mem hv)

theorem channelAt_mem (channels : List ChannelState) (c : ℤ) (ch : ChannelState)
    (h : channelAt channels c = some ch) : ch ∈ channels := by
  unfold channelAt at h
  by_cases h0 : (0 : ℤ) ≤ c
  · rw [if_pos h0] at h
    exact List.getElem?_mem h
  · rw [if_neg h0] at h
    cases h

theorem voicesStep_preserves_levels (channels : List ChannelState) (sr : ℚ)
    (hch : ∀ c ∈ channels, sustainOK c) :
    ∀ vs vs1 out, (∀ v ∈ vs, voiceLevelsOK v) →
      voicesStep channels sr vs = some (vs1, out) →
      ∀ v ∈ vs1, voiceLevelsOK v := by
  intro vs
  induction vs with
  | nil =>
    intro vs1 out _ hstep
    simp only [voicesStep, Option.some.injEq, Prod.mk.injEq] at hstep
    rw [← hstep.1]
    simp
  | cons v rest ih =>
    intro vs1 out hall hstep
    simp only [voicesStep] at hstep
    by_cases hact : v.active = true
    · rw [if_pos hact] at hstep
      cases hca : channelAt channels v.channel with
      | none =>
        rw [hca] at hstep
        cases hstep
      | some ch =>
        rw [hca] at hstep
        cases hrest : voicesStep channels sr rest with
        | none =>
          rw [hrest] at hstep
          cases hstep
        | some p =>
          obtain ⟨vs', out'⟩ := p
          rw [hrest] at hstep
          simp only [Option.some.injEq, Prod.mk.injEq] at hstep
          rw [← hstep.1]
          intro w hw
          rcases List.mem_cons.mp hw with rfl | hw'
          · have hs := hch ch (channelAt_mem channels v.channel ch hca)
            exact oscStep_preserves_levels ch.wavetable _
              (envStep_preserves_levels ch.adsr sr v hs.1 hs.2
                (hall v (by simp)))
          · exact ih vs' out' (fun u hu => hall u (by simp [hu])) hrest w hw'
    · rw [if_neg hact] at hstep
      cases hrest : voicesStep channels sr rest with
      | none =>
        rw [hrest] at hstep
        cases hstep
      | some p =>
        obtain ⟨vs', out'⟩ := p
        rw [hrest] at hstep
        simp only [Option.some.injEq, Prod.mk.injEq] at hstep
        rw [← hstep.1]
        intro w hw
        rcases List.mem_cons.mp hw with rfl | hw'
        · exact hall w (by simp)
        · exact ih vs' out' (fun u hu => hall u (by simp [hu])) hrest w hw'

theorem attackVoice_preserves_levels (freqOf : ℤ → ℚ) (sr : ℚ) (note : ℤ)
    (vel : ℚ) (ch : ℤ) (v : Voice) (hv : voiceLevelsOK v) :
    voiceLevelsOK (attackVoice freqOf sr note vel ch v) := by
  simp only [attackVoice, voiceLevelsOK]
  exact ⟨le_refl 0, by norm_num, hv.2.2.1, hv.2.2.2⟩

theorem handleMessage_preserves_inv (freqOf : ℤ → ℚ) (st : Processor)
    (hinv : EngineInv st) (m : Msg) (hm : msgSustainOK m) :
    EngineInv (handleMessage freqOf st m) := by
  obtain ⟨hvinv, hcinv⟩ := hinv
  cases m with
  | NOTE_ON note vel ch =>
    refine ⟨?_, hcinv⟩
    intro w hw
    simp only [handleMessage, triggerAttack] at hw
    rcases List.mem_or_eq_of_mem_set hw with hw' | rfl
    · exact hvinv w hw'
    · exact attackVoice_preserves_levels freqOf st.sampleRateVal note vel ch _
        (getD_voiceLevelsOK st.voices _ hvinv)
  | NOTE_OFF note ch =>
    refine ⟨?_, hcinv⟩
    intro w hw
    simp only [handleMessage, triggerRelease, List.mem_map] at hw
    obtain ⟨u, hu, rfl⟩ := hw
    have hlev := hvinv u hu
    by_cases hrel : releaseMatches note ch u = true
    · rw [if_pos hrel]
      exact ⟨hlev.1, hlev.2.1, hlev.1, hlev.2.1⟩
    · rw [if_neg hrel]
      exact hlev
  | SET_CHANNEL_WAVETABLE ch wt =>
    simp only [handleMessage]
    cases hca : channelAt st.channels ch with
    | none => exact ⟨hvinv, hcinv⟩
    | some c =>
      by_cases hlen : wt.length = WAVETABLE_SIZE
      · simp only [if_pos hlen]
        refine ⟨hvinv, ?_⟩
        intro d hd
        rcases List.mem_or_eq_of_mem_set hd with hd' | rfl
        · exact hcinv d hd'
        · exact hcinv c (channelAt_mem st.channels ch c hca)
      · simp only [if_neg hlen]
        exact ⟨hvinv, hcinv⟩
  | SET_CHANNEL_ADSR ch adsr =>
    simp only [handleMessage]
    cases hca : channelAt st.channels ch with
    | none => exact ⟨hvinv, hcinv⟩
    | some c =>
      refine ⟨hvinv, ?_⟩
      intro d hd
      rcases List.mem_or_eq_of_mem_set hd with hd' | rfl
      · exact hcinv d hd'
      · exact hm
  | STOP_ALL =>
    refine ⟨?_, hcinv⟩
    intro w hw
    simp only [handleMessage, stopAll, List.mem_map] at hw
    obtain ⟨u, hu, rfl⟩ := hw
    have hlev := hvinv u hu
    exact ⟨le_refl 0, by norm_num [stopVoice], hlev.2.2.1, hlev.2.2.2⟩

/-- C4 amended: assuming every stored sustain lies in `[0,1]` — which fails
only because `SET_CHANNEL_ADSR` stores out-of-range sustain unclamped, see
the counterexample — every operation preserves the level bounds: every
sustain-safe control message and every rendered sample (covering the
per-sample Attack, Decay, Sustain and Release envelope steps) keeps every
voice's `envLevel` and `releaseStartLevel` inside `[0,1]`. -/
theorem claim4_amended_env_level_in_unit_interval (freqOf : ℤ → ℚ)
    (st : Processor) (hinv : EngineInv st) :
    (∀ m, msgSustainOK m → EngineInv (handleMessage freqOf st m)) ∧
    (∀ st1 out, renderSample st = some (st1, out) → EngineInv st1) ∧
    (∀ v ∈ st.voices, 0 ≤ v.envLevel ∧ v.envLevel ≤ 1) := by
  refine ⟨fun m hm => handleMessage_preserves_inv freqOf st hinv m hm, ?_, ?_⟩
  · intro st1 out hr
    simp only [renderSample] at hr
    cases hstep : voicesStep st.channels st.sampleRateVal st.voices with
    | none =>
      rw [hstep] at hr
      cases hr
    | some p =>
      obtain ⟨vs', out'⟩ := p
      rw [hstep] at hr
      simp only [Option.some.injEq, Prod.mk.injEq] at hr
      rw [← hr.1]
      refine ⟨?_, hinv.2⟩
      exact voicesStep_preserves_levels st.channels st.sampleRateVal hinv.2
        st.voices vs' out' hinv.1 hstep
  · intro v hv
    have := hinv.1 v hv
    exact ⟨this.1, this.2.1⟩

/-- C4 witness: the invariant holds of the freshly constructed engine and
is kept by a concrete sustain-safe message. -/
theorem claim4_amended_env_level_in_unit_interval_witness :
    EngineInv (handleMessage freq440 st0 (.SET_CHANNEL_ADSR 0 defaultADSR)) :=
  (claim4_amended_env_level_in_unit_interval freq440 st0
    (by constructor
        · intro v hv
          simp only [st0, initState, zeroTable] at hv
          rw [List.eq_of_mem_replicate hv]
          exact ⟨le_refl 0, by norm_num [initVoice], le_refl 0, by norm_num [initVoice]⟩
        · intro c hc
          simp only [st0, initState, zeroTable] at hc
          rw [List.eq_of_mem_replicate hc]
          exact ⟨by norm_num [defaultADSR], by norm_num [defaultADSR]⟩)).1
    (.SET_CHANNEL_ADSR 0 defaultADSR)
    (by exact ⟨by norm_num [defaultADSR], by norm_num [defaultADSR]⟩)

/-- C5 witness: a concrete full-gain voice at phase 31 with step 2 wraps
to phase 1 by a single subtraction. -/
theorem claim5_phase_advance_and_wrap_witness :
    (wrapVoice.envLevel * wrapVoice.velocity > 1 / 10000 →
      (wrapVoice.phase + wrapVoice.phaseStep < (WAVETABLE_SIZE : ℚ) ∧
        (oscStep zeroTable wrapVoice).1.phase =
          wrapVoice.phase + wrapVoice.phaseStep) ∨
      ((WAVETABLE_SIZE : ℚ) ≤ wrapVoice.phase + wrapVoice.phaseStep ∧
        (oscStep zeroTable wrapVoice).1.phase =
          wrapVoice.phase + wrapVoice.phaseStep - (WAVETABLE_SIZE : ℚ))) ∧
    (wrapVoice.envLevel * wrapVoice.velocity ≤ 1 / 10000 →
      (oscStep zeroTable wrapVoice).1.phase = wrapVoice.phase) ∧
    0 ≤ (oscStep zeroTable wrapVoice).1.phase ∧
    (oscStep zeroTable wrapVoice).1.phase < (WAVETABLE_SIZE : ℚ) :=
  claim5_phase_advance_and_wrap zeroTable wrapVoice
    (by norm_num [wrapVoice, initVoice])
    (by norm_num [wrapVoice, initVoice, WAVETABLE_SIZE])
    (by norm_num [wrapVoice, initVoice])
    (by norm_num [wrapVoice, initVoice, WAVETABLE_SIZE])

/-- C10 witness: a concrete voice at gain `0` is skipped whole. -/
theorem claim10_low_gain_contributes_nothing_witness :
    initVoice.envLevel * initVoice.velocity ≤ 1 / 10000 ∧
      oscStep (List.replicate 32 1) initVoice = (initVoice, 0) :=
  ⟨by norm_num [initVoice],
    claim10_low_gain_contributes_nothing (List.replicate 32 1) initVoice
      (by norm_num [initVoice])⟩

theorem channelAt_eq_some (channels : List ChannelState) (c : ℤ) (h0 : 0 ≤ c)
    (h1 : c.toNat < channels.length) :
    channelAt channels c = some (channels.getD c.toNat emptyChannel) := by
  simp [channelAt, if_pos h0, List.getD_eq_getElem?_getD, List.getElem?_eq_getElem h1]

/-- C8: for a valid channel index, `SET_CHANNEL_WAVETABLE` with a buffer of
length exactly 32 round-trips (read-back equals the input) while leaving
the channel's ADSR, every other channel and the voice pool unchanged; with
a buffer of any other length the whole state is unchanged. -/
theorem claim8_set_wavetable_roundtrip (freqOf : ℤ → ℚ) (st : Processor)
    (c : ℤ) (wt : List ℚ) (h0 : 0 ≤ c) (h1 : c.toNat < st.channels.length) :
    (wt.length = WAVETABLE_SIZE →
      ((handleMessage freqOf st (.SET_CHANNEL_WAVETABLE c wt)).channels.getD
          c.toNat emptyChannel).wavetable = wt ∧
      ((handleMessage freqOf st (.SET_CHANNEL_WAVETABLE c wt)).channels.getD
          c.toNat emptyChannel).adsr = (st.channels.getD c.toNat emptyChannel).adsr ∧
      (handleMessage freqOf st (.SET_CHANNEL_WAVETABLE c wt)).voices = st.voices ∧
      (handleMessage freqOf st (.SET_CHANNEL_WAVETABLE c wt)).sampleRateVal =
        st.sampleRateVal ∧
      ∀ j, j ≠ c.toNat →
        (handleMessage freqOf st (.SET_CHANNEL_WAVETABLE c wt)).channels.getD
          j emptyChannel = st.channels.getD j emptyChannel) ∧
    (wt.length ≠ WAVETABLE_SIZE →
      handleMessage freqOf st (.SET_CHANNEL_WAVETABLE c wt) = st) := by
  constructor
  · intro hlen
    simp only [handleMessage, channelAt_eq_some st.channels c h0 h1, if_pos hlen]
    refine ⟨?_, ?_, trivial, trivial, ?_⟩
    · simp [List.getD_eq_getElem?_getD, List.getElem?_set_self h1]
    · simp [List.getD_eq_getElem?_getD, List.getElem?_set_self h1]
    · intro j hj
      simp [List.getD_eq_getElem?_getD, List.getElem?_set_ne (Ne.symm hj)]
  · intro hlen
    simp only [handleMessage, channelAt_eq_some st.channels c h0 h1, if_neg hlen]

/-- C8 witness: instantiating C8 at channel 0 with a concrete 32-sample
buffer. -/
theorem claim8_set_wavetable_roundtrip_witness :
    ((handleMessage freq440 st0
        (.SET_CHANNEL_WAVETABLE 0 (List.replicate 32 (1/2)))).channels.getD
      0 emptyChannel).wavetable = List.replicate 32 (1/2) :=
  (((claim8_set_wavetable_roundtrip freq440 st0 0 (List.replicate 32 (1/2))
    (by decide) (by decide)).1 (by decide)).1)

/-- C3 counterexample: sending `SET_CHANNEL_ADSR` with sustain `2` stores
sustain `2` in the channel state, not the clamped value `max 0 (min 1 2) = 1`;
the claim that the stored sustain is the clamp of the supplied one is false. -/
theorem claim3_sustain_not_clamped_counterexample :
    ((handleMessage freq440 st0 (.SET_CHANNEL_ADSR 0 adsrOutOfRange)).channels.getD
        0 emptyChannel).adsr.s = 2 ∧
    ((handleMessage freq440 st0 (.SET_CHANNEL_ADSR 0 adsrOutOfRange)).channels.getD
        0 emptyChannel).adsr.s ≠ max 0 (min 1 (2 : ℚ)) := by
  constructor
  · rfl
  · intro h
    rw [show ((handleMessage freq440 st0 (.SET_CHANNEL_ADSR 0 adsrOutOfRange)).channels.getD
        0 emptyChannel).adsr.s = 2 from rfl] at h
    norm_num at h

/-- C3 amended: `SET_CHANNEL_ADSR` on a valid channel stores the supplied
ADSR record verbatim (no clamping of any field happens in the engine; the
sustain clamp the spec mentions lives in the control-side ADSR editor). -/
theorem claim3_amended_adsr_stored_verbatim (freqOf : ℤ → ℚ) (st : Processor)
    (c : ℤ) (adsr : ADSR) (h0 : 0 ≤ c) (h1 : c.toNat < st.channels.length) :
    ((handleMessage freqOf st (.SET_CHANNEL_ADSR c adsr)).channels.getD
      c.toNat emptyChannel).adsr = adsr := by
  simp only [handleMessage, channelAt_eq_some st.channels c h0 h1]
  simp [List.getD_eq_getElem?_getD, List.getElem?_set_self h1]

/-- C3 witness: the out-of-range sustain payload is stored exactly. -/
theorem claim3_amended_adsr_stored_verbatim_witness :
    ((handleMessage freq440 st0 (.SET_CHANNEL_ADSR 0 adsrOutOfRange)).channels.getD
      0 emptyChannel).adsr = adsrOutOfRange :=
  claim3_amended_adsr_stored_verbatim freq440 st0 0 adsrOutOfRange
    (by decide) (by decide)

/-- C2: a `NOTE_ON` whose channel index is outside `[0,15]` is not ignored
— it claims a voice slot carrying the invalid channel — and the very next
render step faults (`this.channels[16]` is `undefined`, so reading `.adsr`
throws from inside the audio callback, modelled by `none`).  This
contradicts the claim that such messages are defensive no-ops after which
rendering still succeeds. -/
theorem claim2_note_on_invalid_channel_faults :
    handleMessage freq440 st0 (.NOTE_ON 60 100 16) ≠ st0 ∧
    renderSample (handleMessage freq440 st0 (.NOTE_ON 60 100 16)) = none := by
  constructor
  · intro h
    have hb := congrArg (fun s => (s.voices.getD 0 initVoice).active) h
    exact Bool.noConfusion (show true = false from hb)
  · rfl

theorem firstWhere_eq_some {α : Type} (p : α → Bool) (d : α) :
    ∀ (l : List α) (i : Nat), firstWhere p l = some i →
      i < l.length ∧ p (l.getD i d) = true ∧ ∀ j, j < i → p (l.getD j d) = false := by
  intro l
  induction l with
  | nil => intro i h; cases h
  | cons x rest ih =>
    intro i h
    simp only [firstWhere] at h
    by_cases hp : p x
    · rw [if_pos hp] at h
      injection h with h
      subst h
      exact ⟨Nat.succ_pos _, by simpa using hp,
        fun j hj => absurd hj (Nat.not_lt_zero j)⟩
    · rw [if_neg hp] at h
      cases hr : firstWhere p rest with
      | none => rw [hr] at h; cases h
      | some k =>
        rw [hr] at h
        simp only [Option.map] at h
        injection h with h
        subst h
        obtain ⟨hk1, hk2, hk3⟩ := ih k hr
        refine ⟨by simpa using Nat.succ_lt_succ hk1, by simpa using hk2, ?_⟩
        intro j hj
        cases j with
        | zero =>
          have hfx : p x = false := by revert hp; cases p x <;> simp
          simpa using hfx
        | succ j =>
          simpa using hk3 j (Nat.lt_of_succ_lt_succ hj)

theorem firstWhere_isSome_of_exists {α : Type} (p : α → Bool) :
    ∀ l : List α, (∃ x ∈ l, p x = true) → (firstWhere p l).isSome = true := by
  intro l
  induction l with
  | nil =>
    rintro ⟨x, hx, _⟩
    cases hx
  | cons y rest ih =>
    rintro ⟨x, hx, hpx⟩
    simp only [firstWhere]
    by_cases hp : p y
    · rw [if_pos hp]; rfl
    · rw [if_neg hp]
      rcases List.mem_cons.mp hx with rfl | hx'
      · exact absurd hpx hp
      · have hrest := ih ⟨x, hx', hpx⟩
        cases hfw : firstWhere p rest with
        | none => rw [hfw] at hrest; simp at hrest
        | some k => rfl

theorem firstWhere_eq_none_of_all {α : Type} (p : α → Bool) :
    ∀ l : List α, (∀ x ∈ l, p x = false) → firstWhere p l = none := by
  intro l
  induction l with
  | nil => intro _; rfl
  | cons x rest ih =>
    intro h
    simp only [firstWhere]
    rw [if_neg (by simp [h x (by simp)])]
    rw [ih (fun y hy => h y (by simp [hy]))]
    rfl

theorem firstWhere_map {α β : Type} (f : α → β) (p : β → Bool) :
    ∀ l : List α, firstWhere p (l.map f) = firstWhere (fun x => p (f x)) l := by
  intro l
  induction l with
  | nil => rfl
  | cons x rest ih => simp only [List.map_cons, firstWhere, ih]

theorem selectIdx_eq_states (vs : List Voice) :
    selectIdx vs = selectIdxStates (vs.map Voice.envState) := by
  unfold selectIdx selectIdxStates
  rw [firstWhere_map, firstWhere_map]

theorem states_triggerAttack (freqOf : ℤ → ℚ) (st : Processor) (n : ℤ)
    (vel : ℚ) (c : ℤ) :
    (triggerAttack freqOf st n vel c).voices.map Voice.envState =
      (st.voices.map Voice.envState).set
        (selectIdxStates (st.voices.map Voice.envState)) .ATTACK := by
  simp only [triggerAttack, List.map_set, attackVoice]
  rw [← selectIdx_eq_states]

theorem actives_triggerAttack (freqOf : ℤ → ℚ) (st : Processor) (n : ℤ)
    (vel : ℚ) (c : ℤ) :
    (triggerAttack freqOf st n vel c).voices.map Voice.active =
      (st.voices.map Voice.active).set
        (selectIdxStates (st.voices.map Voice.envState)) true := by
  simp only [triggerAttack, List.map_set, attackVoice]
  rw [← selectIdx_eq_states]

theorem countActive_eq_filter (st : Processor) :
    countActive st = ((st.voices.map Voice.active).filter (fun b => b)).length := by
  simp only [countActive, List.filter_map, List.length_map]
  rfl

/-- C1: `triggerAttack` selects the lowest-index `IDLE` voice if one
exists; otherwise the lowest-index `RELEASE` voice if one exists;
otherwise slot 0 unconditionally.  Consequently seven consecutive
`triggerAttack` calls on the freshly constructed pool of size 6 leave
exactly 6 voices active. -/
theorem claim1_voice_selection_priority :
    (∀ vs : List Voice,
      ((∃ v ∈ vs, isIdle v.envState = true) →
        selectIdx vs < vs.length ∧
        isIdle ((vs.getD (selectIdx vs) initVoice).envState) = true ∧
        ∀ j, j < selectIdx vs → isIdle ((vs.getD j initVoice).envState) = false) ∧
      ((∀ v ∈ vs, isIdle v.envState = false) →
        (∃ v ∈ vs, isRelease v.envState = true) →
        selectIdx vs < vs.length ∧
        isRelease ((vs.getD (selectIdx vs) initVoice).envState) = true ∧
        ∀ j, j < selectIdx vs → isRelease ((vs.getD j initVoice).envState) = false) ∧
      ((∀ v ∈ vs, isIdle v.envState = false) →
        (∀ v ∈ vs, isRelease v.envState = false) →
        selectIdx vs = 0)) ∧
    (∀ (freqOf : ℤ → ℚ) (table : List ℚ) (sr : ℚ)
        (n1 : ℤ) (w1 : ℚ) (c1 : ℤ) (n2 : ℤ) (w2 : ℚ) (c2 : ℤ)
        (n3 : ℤ) (w3 : ℚ) (c3 : ℤ) (n4 : ℤ) (w4 : ℚ) (c4 : ℤ)
        (n5 : ℤ) (w5 : ℚ) (c5 : ℤ) (n6 : ℤ) (w6 : ℚ) (c6 : ℤ)
        (n7 : ℤ) (w7 : ℚ) (c7 : ℤ),
      countActive
        (triggerAttack freqOf
          (triggerAttack freqOf
            (triggerAttack freqOf
              (triggerAttack freqOf
                (triggerAttack freqOf
                  (triggerAttack freqOf
                    (triggerAttack freqOf (initState table sr) n1 w1 c1)
                    n2 w2 c2)
                  n3 w3 c3)
                n4 w4 c4)
              n5 w5 c5)
            n6 w6 c6)
          n7 w7 c7) = 6) := by
  constructor
  · intro vs
    refine ⟨?_, ?_, ?_⟩
    · rintro ⟨w, hw, hpw⟩
      have hsome := firstWhere_isSome_of_exists (fun v => isIdle v.envState) vs
        ⟨w, hw, hpw⟩
      obtain ⟨i, hi⟩ := Option.isSome_iff_exists.mp hsome
      obtain ⟨hlen, hsel, hmin⟩ :=
        firstWhere_eq_some (fun v => isIdle v.envState) initVoice vs i hi
      have hse : selectIdx vs = i := by simp [selectIdx, hi]
      rw [hse]
      exact ⟨hlen, hsel, hmin⟩
    · intro hall hex
      have hnone := firstWhere_eq_none_of_all (fun v => isIdle v.envState) vs hall
      have hsome := firstWhere_isSome_of_exists (fun v => isRelease v.envState) vs hex
      obtain ⟨i, hi⟩ := Option.isSome_iff_exists.mp hsome
      obtain ⟨hlen, hsel, hmin⟩ :=
        firstWhere_eq_some (fun v => isRelease v.envState) initVoice vs i hi
      have hse : selectIdx vs = i := by simp [selectIdx, hnone, hi]
      rw [hse]
      exact ⟨hlen, hsel, hmin⟩
    · intro h1 h2
      have hn1 := firstWhere_eq_none_of_all (fun v => isIdle v.envState) vs h1
      have hn2 := firstWhere_eq_none_of_all (fun v => isRelease v.envState) vs h2
      simp [selectIdx, hn1, hn2]
  · intro freqOf table sr n1 w1 c1 n2 w2 c2 n3 w3 c3 n4 w4 c4 n5 w5 c5
      n6 w6 c6 n7 w7 c7
    have e0s : (initState table sr).voices.map Voice.envState =
        [.IDLE, .IDLE, .IDLE, .IDLE, .IDLE, .IDLE] := rfl
    have e0a : (initState table sr).voices.map Voice.active =
        [false, false, false, false, false, false] := rfl
    set s1 := triggerAttack freqOf (initState table sr) n1 w1 c1 with hs1
    have e1s : s1.voices.map Voice.envState =
        [.ATTACK, .IDLE, .IDLE, .IDLE, .IDLE, .IDLE] := by
      rw [hs1, states_triggerAttack, e0s]; decide
    have e1a : s1.voices.map Voice.active =
        [true, false, false, false, false, false] := by
      rw [hs1, actives_triggerAttack, e0a, e0s]; decide
    set s2 := triggerAttack freqOf s1 n2 w2 c2 with hs2
    have e2s : s2.voices.map Voice.envState =
        [.ATTACK, .ATTACK, .IDLE, .IDLE, .IDLE, .IDLE] := by
      rw [hs2, states_triggerAttack, e1s]; decide
    have e2a : s2.voices.map Voice.active =
        [true, true, false, false, false, false] := by
      rw [hs2, actives_triggerAttack, e1a, e1s]; decide
    set s3 := triggerAttack freqOf s2 n3 w3 c3 with hs3
    have e3s : s3.voices.map Voice.envState =
        [.ATTACK, .ATTACK, .ATTACK, .IDLE, .IDLE, .IDLE] := by
      rw [hs3, states_triggerAttack, e2s]; decide
    have e3a : s3.voices.map Voice.active =
        [true, true, true, false, false, false] := by
      rw [hs3, actives_triggerAttack, e2a, e2s]; decide
    set s4 := triggerAttack freqOf s3 n4 w4 c4 with hs4
    have e4s : s4.voices.map Voice.envState =
        [.ATTACK, .ATTACK, .ATTACK, .ATTACK, .IDLE, .IDLE] := by
      rw [hs4, states_triggerAttack, e3s]; decide
    have e4a : s4.voices.map Voice.active =
        [true, true, true, true, false, false] := by
      rw [hs4, actives_triggerAttack, e3a, e3s]; decide
    set s5 := triggerAttack freqOf s4 n5 w5 c5 with hs5
    have e5s : s5.voices.map Voice.envState =
        [.ATTACK, .ATTACK, .ATTACK, .ATTACK, .ATTACK, .IDLE] := by
      rw [hs5, states_triggerAttack, e4s]; decide
    have e5a : s5.voices.map Voice.active =
        [true, true, true, true, true, false] := by
      rw [hs5, actives_triggerAttack, e4a, e4s]; decide
    set s6 := triggerAttack freqOf s5 n6 w6 c6 with hs6
    have e6s : s6.voices.map Voice.envState =
        [.ATTACK, .ATTACK, .ATTACK, .ATTACK, .ATTACK, .ATTACK] := by
      rw [hs6, states_triggerAttack, e5s]; decide
    have e6a : s6.voices.map Voice.active =
        [true, true, true, true, true, true] := by
      rw [hs6, actives_triggerAttack, e5a, e5s]; decide
    set s7 := triggerAttack freqOf s6 n7 w7 c7 with hs7
    have e7a : s7.voices.map Voice.active =
        [true, true, true, true, true, true] := by
      rw [hs7, actives_triggerAttack, e6a, e6s]; decide
    rw [countActive_eq_filter, e7a]
    decide

/-- C1 witness: the selection rule instantiated on the all-idle pool, and
seven concrete notes triggered on the fresh engine leaving 6 active. -/
theorem claim1_voice_selection_priority_witness :
    (selectIdx (List.replicate 6 initVoice) < (List.replicate 6 initVoice).length ∧
      isIdle (((List.replicate 6 initVoice).getD
        (selectIdx (List.replicate 6 initVoice)) initVoice).envState) = true ∧
      ∀ j, j < selectIdx (List.replicate 6 initVoice) →
        isIdle (((List.replicate 6 initVoice).getD j initVoice).envState) = false) ∧
    countActive
      (triggerAttack freq440
        (triggerAttack freq440
          (triggerAttack freq440
            (triggerAttack freq440
              (triggerAttack freq440
                (triggerAttack freq440
                  (triggerAttack freq440 (initState zeroTable 48000) 60 100 0)
                  61 100 0)
                62 100 0)
              63 100 0)
            64 100 0)
          65 100 0)
        66 100 0) = 6 :=
  ⟨(claim1_voice_selection_priority.1 (List.replicate 6 initVoice)).1
      ⟨initVoice, List.mem_replicate.mpr ⟨by norm_num, rfl⟩, rfl⟩,
    claim1_voice_selection_priority.2 freq440 zeroTable 48000
      60 100 0 61 100 0 62 100 0 63 100 0 64 100 0 65 100 0 66 100 0⟩

end WavetableSynth
